import Mathlib

/-!
Shallow embedding of `src/lxc_idmap_v2.py` and verification of the
spec's claims about it.

Conventions of the embedding:
* Python ints are `Int` (Python integers are unbounded; lengths computed by
  the partitioner can be negative, which `Int` represents faithfully).
* Each line `lxc.idmap = <letter> <start> <host> <len>` appended to the
  output string by `create_idmaps` is modelled as one `RangeRecord`; the
  output string is the concatenation of the rendered records, so the record
  list carries exactly the information of the string.
* A raised Python exception (IdError, IndexError, AttributeError) is
  modelled by `none` / `some error`; a normal return by `some result`.
-/

/-- The `IdType` enum of the source: `USER = 'u'`, `GROUP = 'g'`. -/
inductive IdType where
  | user
  | group
deriving DecidableEq

/-- `IdType.sort_order`: 0 for USER, 1 for GROUP. -/
def IdType.sortOrder : IdType → Nat
  | .user => 0
  | .group => 1

/-- The `.value` of the StrEnum member: the class letter. -/
def IdType.letter : IdType → String
  | .user => "u"
  | .group => "g"

/-- `id_type.value.upper()`: the upper-case class letter. -/
def IdType.letterUpper : IdType → String
  | .user => "U"
  | .group => "G"

/-- One `(id_type, lxc_id, host_id)` tuple of the source. -/
structure IdMapping where
  ty : IdType
  lxcId : Int
  hostId : Int
deriving DecidableEq

/-- The payload of `IdError(_id, id_type)`: the message is a pure function
of these two constructor arguments, so they are the error's whole
information content. -/
structure IdErrorData where
  id : Int
  ty : IdType
deriving DecidableEq

/-- The message built by `IdError.__init__`:
`f'{id_type.value.upper()}ID {_id} is not in range 1-65536'`. -/
def IdErrorData.msg (e : IdErrorData) : String :=
  e.ty.letterUpper ++ "ID " ++ toString e.id ++ " is not in range 1-65536"

/-- `validate_ids`: walks the list, and for the first id (container first,
then host) outside `[1, 65536]` raises `IdError(id, id_type)`; returns
normally (`none`) when all ids are in range. -/
def validateIds : List IdMapping → Option IdErrorData
  | [] => none
  | p :: ps =>
    if ¬ (1 ≤ p.lxcId ∧ p.lxcId ≤ 65536) then some ⟨p.lxcId, p.ty⟩
    else if ¬ (1 ≤ p.hostId ∧ p.hostId ≤ 65536) then some ⟨p.hostId, p.ty⟩
    else validateIds ps

/-- One `lxc.idmap = <ty.letter> <start> <host> <len>` output line. -/
structure RangeRecord where
  ty : IdType
  start : Int
  host : Int
  len : Int
deriving DecidableEq

/-- `create_default_idmap`: the line `lxc.idmap = <letter> 0 100000 65536`. -/
def createDefaultIdmap (t : IdType) : RangeRecord :=
  ⟨t, 0, 100000, 65536⟩

/-- The mutable state of the loop in `create_idmaps`: the accumulated
output, `prev_id`, and `previous_id_type`. -/
structure LoopState where
  out : List RangeRecord
  prevId : Int
  prevType : Option IdType
deriving DecidableEq

/-- The body of the `for idx, (id_type, lxc_id, host_id) in enumerate(ids)`
loop of `create_idmaps` (lines 119-138 of the source).  Note that the
pre-point filler on line 131 is emitted unconditionally (there is no
`lxc_id > prev_id` guard in the source), and that the class-change filler
on line 123 hard-codes the letter `u`. -/
def idmapStep (s : LoopState) (p : IdMapping) : LoopState :=
  let s1 : LoopState :=
    match s.prevType with
    | some pt =>
      if p.ty ≠ pt then
        { out := s.out ++ [⟨IdType.user, s.prevId, s.prevId + 100000, 65536 - s.prevId⟩],
          prevId := 0,
          prevType := some p.ty }
      else s
    | none => s
  let rng := p.lxcId - s1.prevId
  let pt2 : IdType :=
    match s1.prevType with
    | none => p.ty
    | some t => t
  { out := s1.out ++ [⟨pt2, s1.prevId, s1.prevId + 100000, rng⟩,
                      ⟨p.ty, p.lxcId, p.hostId, 1⟩],
    prevId := p.lxcId + 1,
    prevType := some p.ty }

/-- `create_idmaps`.  `ids[0]` on the empty list raises IndexError, hence
`none`; on the final line the source reads `previous_id_type.value`, which
would raise AttributeError were `previous_id_type` still `None`, hence the
inner `match`.  The comparison `previous_id_type == IdType.USER.value` on
line 144 is a StrEnum/str comparison that holds exactly when the type is
USER. -/
def createIdmaps (ids : List IdMapping) : Option (List RangeRecord) :=
  match ids with
  | [] => none
  | p0 :: _ =>
    let init : List RangeRecord :=
      if p0.ty = IdType.group then [createDefaultIdmap IdType.user] else []
    let s := List.foldl idmapStep ⟨init, 0, none⟩ ids
    match s.prevType with
    | none => none
    | some t =>
      let out := s.out ++ [⟨t, s.prevId, s.prevId + 100000, 65536 - s.prevId⟩]
      some (if t = IdType.user then out ++ [createDefaultIdmap IdType.group] else out)

/-- `create_subuid_subgid_info`: the two lists of host ids written as
`root:<id>:1` lines, first the `/etc/subuid` block (host ids of the USER
points, in list order), then the `/etc/subgid` block (host ids of the
GROUP points). -/
def createSubuidSubgidInfo (ids : List IdMapping) : List Int × List Int :=
  ((ids.filter (fun p => decide (p.ty = IdType.user))).map (fun p => p.hostId),
   (ids.filter (fun p => decide (p.ty = IdType.group))).map (fun p => p.hostId))

/-! Derived vocabulary used to state the claims. -/

/-- The records of one identifier class, in emission order. -/
def classRecords (t : IdType) (rs : List RangeRecord) : List RangeRecord :=
  rs.filter (fun r => decide (r.ty = t))

/-- The exact record `(class, container_id, host_id, 1)` of a point. -/
def exactRec (p : IdMapping) : RangeRecord :=
  ⟨p.ty, p.lxcId, p.hostId, 1⟩

/-- The closing filler emitted for a class from cursor `c`. -/
def tailRec (t : IdType) (c : Int) : RangeRecord :=
  ⟨t, c, c + 100000, 65536 - c⟩

/-- The walk of lines 119-138 restricted to a single same-class run of
points: before each point the unconditional filler from the cursor, then
the exact record, cursor advancing to `lxcId + 1`. -/
def walk (t : IdType) : Int → List IdMapping → List RangeRecord
  | _, [] => []
  | c, p :: ps =>
    ⟨t, c, c + 100000, p.lxcId - c⟩ :: ⟨p.ty, p.lxcId, p.hostId, 1⟩ :: walk t (p.lxcId + 1) ps

/-- The cursor value after walking a run of points. -/
def cursorAfter : Int → List IdMapping → Int
  | c, [] => c
  | _, p :: ps => cursorAfter (p.lxcId + 1) ps

/-- The complete record sequence of one class: the walk over its points
followed by the closing filler up to 65536. -/
def walkFull (t : IdType) (ps : List IdMapping) : List RangeRecord :=
  walk t 0 ps ++ [tailRec t (cursorAfter 0 ps)]

/-- `telescopes a b rs`: the records, in order, tile `[a, b)` without gap:
the first starts at `a`, each next record starts where the previous one
ends, and the last ends at `b`. -/
def telescopes : Int → Int → List RangeRecord → Bool
  | a, b, [] => decide (a = b)
  | a, b, r :: rs => decide (r.start = a) && telescopes (r.start + r.len) b rs

/-- Container id `n` lies in the half-open interval of record `r`. -/
def coversPt (n : Int) (r : RangeRecord) : Bool :=
  decide (r.start ≤ n) && decide (n < r.start + r.len)

/-- How many of the records cover container id `n`. -/
def countCover (n : Int) (rs : List RangeRecord) : Nat :=
  rs.countP (coversPt n)

/-- The records are listed in nondecreasing `container_start` order. -/
def sortedByStart (rs : List RangeRecord) : Prop :=
  List.Chain' (fun r s => r.start ≤ s.start) rs

/-- A record is a filler iff its host side is the container side shifted
by the fixed offset 100000; every non-exact record of the partitioner has
this shape, and no exact record can (host ids are at most 65536). -/
def RangeRecord.isFiller (r : RangeRecord) : Bool :=
  decide (r.host = r.start + 100000)

/-- The class opposite to `t`. -/
def otherClass : IdType → IdType
  | .user => .group
  | .group => .user

/-- The contribution of one class to the output: its full walk, or the
default record when the class has no points. -/
def partFor (t : IdType) (ps : List IdMapping) : List RangeRecord :=
  if ps = [] then [createDefaultIdmap t] else walkFull t ps

/-! The string splitting of `create_id_lists` (lines 68-83), modelled on
`List Char`.  `splitAux sep s` returns the segment currently being built
and the list of later segments; `pySplit` is Python's `s.split(sep)` for a
one-character separator, which always returns at least one (possibly
empty) segment. -/

/-- Helper for `pySplit`: the first segment and the remaining segments. -/
def splitAux (sep : Char) : List Char → List Char × List (List Char)
  | [] => ([], [])
  | c :: cs =>
    let r := splitAux sep cs
    if c = sep then ([], r.1 :: r.2) else (c :: r.1, r.2)

/-- Python `s.split(sep)` for a one-character separator. -/
def pySplit (sep : Char) (s : List Char) : List (List Char) :=
  (splitAux sep s).1 :: (splitAux sep s).2

/-- Python `lst[0]` on the (always non-empty) split result. -/
def pyFirst (l : List (List Char)) : List Char :=
  l.headI

/-- Python `lst[-1]` on the (always non-empty) split result. -/
def pyLast : List (List Char) → List Char
  | [] => []
  | [s] => s
  | _ :: s :: rest => pyLast (s :: rest)

/-- Line 70: `lxc_ids = mapping.split('=')[0]`. -/
def lxcIds (mapping : List Char) : List Char :=
  pyFirst (pySplit '=' mapping)

/-- Line 71: `host_ids = mapping.split('=')[-1]`. -/
def hostIds (mapping : List Char) : List Char :=
  pyLast (pySplit '=' mapping)

/-- Line 74: `lxc_uid = lxc_ids.split(':')[0]`. -/
def lxcUid (mapping : List Char) : List Char :=
  pyFirst (pySplit ':' (lxcIds mapping))

/-- Line 75: `lxc_gid = lxc_ids.split(':')[-1]`. -/
def lxcGid (mapping : List Char) : List Char :=
  pyLast (pySplit ':' (lxcIds mapping))

/-- Line 78: `host_uid = host_ids.split(':')[0]`. -/
def hostUid (mapping : List Char) : List Char :=
  pyFirst (pySplit ':' (hostIds mapping))

/-- Line 79: `host_gid = host_ids.split(':')[-1]`. -/
def hostGid (mapping : List Char) : List Char :=
  pyLast (pySplit ':' (hostIds mapping))

/-- Python `int(s)` on the digit strings relevant here; `none` models a
ValueError. -/
def pyInt (s : List Char) : Option Int :=
  if s ≠ [] ∧ s.all (fun c => c.isDigit) then
    some (s.foldl (fun acc c => acc * 10 + ((c.toNat : Int) - 48)) 0)
  else none

/-- The two points one combined mapping token contributes (lines 82-83):
a USER point from the uid components and a GROUP point from the gid
components. -/
def parseCombined (mapping : List Char) : Option (IdMapping × IdMapping) :=
  match pyInt (lxcUid mapping), pyInt (hostUid mapping),
        pyInt (lxcGid mapping), pyInt (hostGid mapping) with
  | some lu, some hu, some lg, some hg =>
    some (⟨IdType.user, lu, hu⟩, ⟨IdType.group, lg, hg⟩)
  | _, _, _, _ => none

/-! Validation (claims C6 and C7). -/

/-- Claim C6: validation accepts ids exactly in the closed interval
`[1, 65536]`: it returns without error iff every container id and every
host id of every point lies in the interval (so 1 and 65536 are accepted,
0 and 65537 rejected). -/
theorem validateIds_none_iff_in_range (ids : List IdMapping) :
    validateIds ids = none ↔
      ∀ p ∈ ids, 1 ≤ p.lxcId ∧ p.lxcId ≤ 65536 ∧ 1 ≤ p.hostId ∧ p.hostId ≤ 65536 := by
  induction ids with
  | nil => simp [validateIds]
  | cons p ps ih =>
    by_cases h1 : 1 ≤ p.lxcId ∧ p.lxcId ≤ 65536
    · by_cases h2 : 1 ≤ p.hostId ∧ p.hostId ≤ 65536
      · simp only [validateIds, if_neg (not_not_intro h1), if_neg (not_not_intro h2)]
        rw [ih]
        constructor
        · intro h q hq
          rcases List.mem_cons.mp hq with hq | hq
          · subst hq; exact ⟨h1.1, h1.2, h2.1, h2.2⟩
          · exact h q hq
        · intro h q hq
          exact h q (List.mem_cons_of_mem p hq)
      · simp only [validateIds, if_neg (not_not_intro h1), if_pos h2]
        constructor
        · intro h; exact absurd h (Option.some_ne_none _)
        · intro h
          exact absurd ⟨(h p (List.mem_cons_self p ps)).2.2.1,
                        (h p (List.mem_cons_self p ps)).2.2.2⟩ h2
    · simp only [validateIds, if_pos h1]
      constructor
      · intro h; exact absurd h (Option.some_ne_none _)
      · intro h
        exact absurd ⟨(h p (List.mem_cons_self p ps)).1,
                      (h p (List.mem_cons_self p ps)).2.1⟩ h1

/-- Witness for C6 at the boundary values: the points
`(User, 1, 65536)` and `(Group, 65536, 1)` are accepted. -/
theorem validateIds_none_iff_in_range_witness :
    validateIds [⟨IdType.user, 1, 65536⟩, ⟨IdType.group, 65536, 1⟩] = none :=
  (validateIds_none_iff_in_range [⟨IdType.user, 1, 65536⟩, ⟨IdType.group, 65536, 1⟩]).mpr
    (by decide)

/-- Claim C7 is violated by the code: the raised error carries only the
offending id and its class (its message is a pure function of these two),
so it cannot report whether the container-side or the host-side value was
out of range.  Concretely, the inputs `(User, 70000, 5)` (bad container
id) and `(User, 5, 70000)` (bad host id) raise identical errors with the
identical message. -/
theorem idError_side_indistinct :
    validateIds [⟨IdType.user, 70000, 5⟩] = validateIds [⟨IdType.user, 5, 70000⟩] ∧
    validateIds [⟨IdType.user, 70000, 5⟩] = some ⟨70000, IdType.user⟩ ∧
    IdErrorData.msg ⟨70000, IdType.user⟩ = "UID 70000 is not in range 1-65536" := by
  refine ⟨rfl, rfl, ?_⟩
  decide

/-- Claim C7 (amended): for every input on which validation fails, the
raised error identifies the offending id and its class (User or Group) --
but not which of the two sides (container or host) was out of range. -/
theorem idError_identifies_id_and_class (ids : List IdMapping) (e : IdErrorData)
    (h : validateIds ids = some e) :
    ∃ p ∈ ids, p.ty = e.ty ∧ (e.id = p.lxcId ∨ e.id = p.hostId) ∧
      ¬ (1 ≤ e.id ∧ e.id ≤ 65536) := by
  induction ids with
  | nil => simp [validateIds] at h
  | cons p ps ih =>
    by_cases h1 : 1 ≤ p.lxcId ∧ p.lxcId ≤ 65536
    · by_cases h2 : 1 ≤ p.hostId ∧ p.hostId ≤ 65536
      · simp only [validateIds, if_neg (not_not_intro h1), if_neg (not_not_intro h2)] at h
        obtain ⟨q, hq, hty, hid, hrange⟩ := ih h
        exact ⟨q, List.mem_cons_of_mem p hq, hty, hid, hrange⟩
      · simp only [validateIds, if_neg (not_not_intro h1), if_pos h2] at h
        obtain rfl : (⟨p.hostId, p.ty⟩ : IdErrorData) = e := Option.some.inj h
        exact ⟨p, List.mem_cons_self p ps, rfl, Or.inr rfl, h2⟩
    · simp only [validateIds, if_pos h1] at h
      obtain rfl : (⟨p.lxcId, p.ty⟩ : IdErrorData) = e := Option.some.inj h
      exact ⟨p, List.mem_cons_self p ps, rfl, Or.inl rfl, h1⟩

/-- Witness for the amended C7 at the input `(User, 0, 1000)`. -/
theorem idError_identifies_id_and_class_witness :
    ∃ p ∈ [(⟨IdType.user, 0, 1000⟩ : IdMapping)],
      p.ty = (⟨0, IdType.user⟩ : IdErrorData).ty ∧
      ((⟨0, IdType.user⟩ : IdErrorData).id = p.lxcId ∨
       (⟨0, IdType.user⟩ : IdErrorData).id = p.hostId) ∧
      ¬ (1 ≤ (⟨0, IdType.user⟩ : IdErrorData).id ∧
         (⟨0, IdType.user⟩ : IdErrorData).id ≤ 65536) :=
  idError_identifies_id_and_class [⟨IdType.user, 0, 1000⟩] ⟨0, IdType.user⟩ rfl

/-! Undefinedness on the empty input (claim C9) and the two silent
corruption bugs of the partitioner (claims C2 and C5). -/

/-- Claim C9: `create_idmaps` inspects `ids[0]` unconditionally, so the
empty list raises IndexError (modelled by `none`), and every successful
invocation had a non-empty point list. -/
theorem createIdmaps_empty_undefined :
    createIdmaps [] = none ∧
      ∀ (ids : List IdMapping) (out : List RangeRecord),
        createIdmaps ids = some out → ids ≠ [] := by
  refine ⟨rfl, ?_⟩
  intro ids out h hnil
  subst hnil
  exact absurd h (by simp [createIdmaps])

/-- Witness for C9: a successful run on a singleton input. -/
theorem createIdmaps_empty_undefined_witness :
    ([(⟨IdType.user, 1000, 1000⟩ : IdMapping)] : List IdMapping) ≠ [] :=
  createIdmaps_empty_undefined.2 [⟨IdType.user, 1000, 1000⟩]
    [⟨IdType.user, 0, 100000, 1000⟩, ⟨IdType.user, 1000, 1000, 1⟩,
     ⟨IdType.user, 1001, 101001, 64535⟩, createDefaultIdmap IdType.group]
    rfl

/-- Claim C2 is violated by the code: the pre-point filler of line 131 is
emitted unconditionally (the source has no `lxc_id > prev_id` guard), so
the valid, strictly increasing input `(User,1,1), (User,2,2)` yields a
zero-length record `u 2 100002 0` in the output. -/
theorem zero_length_record_emitted :
    ∃ l, createIdmaps [⟨IdType.user, 1, 1⟩, ⟨IdType.user, 2, 2⟩] = some l ∧
      ∃ r ∈ l, r.len = 0 :=
  ⟨[⟨IdType.user, 0, 100000, 1⟩, ⟨IdType.user, 1, 1, 1⟩,
    ⟨IdType.user, 2, 100002, 0⟩, ⟨IdType.user, 2, 2, 1⟩,
    ⟨IdType.user, 3, 100003, 65533⟩, ⟨IdType.group, 0, 100000, 65536⟩],
   rfl, ⟨IdType.user, 2, 100002, 0⟩, by simp, rfl⟩

/-- Claim C5 is violated by the code: on a duplicated container id the
partitioner raises no error at all; it silently returns output containing
the negative-length record `u 6 100006 -1` for the duplicate input
`(User,5,5), (User,5,6)`. -/
theorem duplicate_ids_silent_corruption :
    ∃ l, createIdmaps [⟨IdType.user, 5, 5⟩, ⟨IdType.user, 5, 6⟩] = some l ∧
      ∃ r ∈ l, r.len < 0 :=
  ⟨[⟨IdType.user, 0, 100000, 5⟩, ⟨IdType.user, 5, 5, 1⟩,
    ⟨IdType.user, 6, 100006, -1⟩, ⟨IdType.user, 5, 6, 1⟩,
    ⟨IdType.user, 6, 100006, 65530⟩, ⟨IdType.group, 0, 100000, 65536⟩],
   by decide, ⟨IdType.user, 6, 100006, -1⟩, by simp, by decide⟩

/-! The loop of `create_idmaps`, decomposed into per-class runs. -/

/-- Loop body with `previous_id_type` still unset: no class-change check,
then the unconditional filler and the exact record. -/
lemma idmapStep_none (s : LoopState) (p : IdMapping) (h : s.prevType = none) :
    idmapStep s p =
      ⟨s.out ++ [⟨p.ty, s.prevId, s.prevId + 100000, p.lxcId - s.prevId⟩,
                 ⟨p.ty, p.lxcId, p.hostId, 1⟩], p.lxcId + 1, some p.ty⟩ := by
  simp [idmapStep, h]

/-- Loop body when the point is of the same class as the previous one. -/
lemma idmapStep_same (s : LoopState) (p : IdMapping) (h : s.prevType = some p.ty) :
    idmapStep s p =
      ⟨s.out ++ [⟨p.ty, s.prevId, s.prevId + 100000, p.lxcId - s.prevId⟩,
                 ⟨p.ty, p.lxcId, p.hostId, 1⟩], p.lxcId + 1, some p.ty⟩ := by
  simp [idmapStep, h]

/-- Loop body at the class change: the closing filler of the previous class
(hard-coded letter `u` in the source), the cursor reset to 0, then the
filler and exact record of the new class. -/
lemma idmapStep_diff (s : LoopState) (p : IdMapping) (t : IdType)
    (h : s.prevType = some t) (hne : p.ty ≠ t) :
    idmapStep s p =
      ⟨s.out ++ [⟨IdType.user, s.prevId, s.prevId + 100000, 65536 - s.prevId⟩,
                 ⟨p.ty, 0, 0 + 100000, p.lxcId - 0⟩,
                 ⟨p.ty, p.lxcId, p.hostId, 1⟩], p.lxcId + 1, some p.ty⟩ := by
  simp [idmapStep, h, hne]

/-- Folding the loop body over a same-class run extends the output by the
run's walk and advances the cursor. -/
lemma foldl_run_some (t : IdType) :
    ∀ (ps : List IdMapping) (acc : List RangeRecord) (c : Int),
      (∀ p ∈ ps, p.ty = t) →
      List.foldl idmapStep ⟨acc, c, some t⟩ ps =
        ⟨acc ++ walk t c ps, cursorAfter c ps, some t⟩
  | [], acc, c, _ => by simp [walk, cursorAfter]
  | p :: ps, acc, c, hall => by
    have hp : p.ty = t := hall p (List.mem_cons_self p ps)
    rw [List.foldl_cons, idmapStep_same ⟨acc, c, some t⟩ p (by rw [hp])]
    rw [hp, foldl_run_some t ps _ _ (fun q hq => hall q (List.mem_cons_of_mem p hq))]
    simp [walk, cursorAfter, hp]

/-- Folding from the initial `previous_id_type = None` state over a
non-empty same-class run. -/
lemma foldl_run_none (t : IdType) (ps : List IdMapping) (acc : List RangeRecord) (c : Int)
    (hall : ∀ p ∈ ps, p.ty = t) (hne : ps ≠ []) :
    List.foldl idmapStep ⟨acc, c, none⟩ ps =
      ⟨acc ++ walk t c ps, cursorAfter c ps, some t⟩ := by
  cases ps with
  | nil => exact absurd rfl hne
  | cons p ps =>
    have hp : p.ty = t := hall p (List.mem_cons_self p ps)
    rw [List.foldl_cons, idmapStep_none ⟨acc, c, none⟩ p rfl]
    rw [hp, foldl_run_some t ps _ _ (fun q hq => hall q (List.mem_cons_of_mem p hq))]
    simp [walk, cursorAfter, hp]

/-- Folding a non-empty GROUP run from a USER state emits the USER closing
filler, resets the cursor to 0 and walks the GROUP run. -/
lemma foldl_trans (ps : List IdMapping) (acc : List RangeRecord) (c : Int)
    (hall : ∀ p ∈ ps, p.ty = IdType.group) (hne : ps ≠ []) :
    List.foldl idmapStep ⟨acc, c, some IdType.user⟩ ps =
      ⟨acc ++ tailRec IdType.user c :: walk IdType.group 0 ps,
       cursorAfter 0 ps, some IdType.group⟩ := by
  cases ps with
  | nil => exact absurd rfl hne
  | cons p ps =>
    have hp : p.ty = IdType.group := hall p (List.mem_cons_self p ps)
    rw [List.foldl_cons,
        idmapStep_diff ⟨acc, c, some IdType.user⟩ p IdType.user rfl (by rw [hp]; decide)]
    rw [hp, foldl_run_some IdType.group ps _ _ (fun q hq => hall q (List.mem_cons_of_mem p hq))]
    simp [walk, cursorAfter, tailRec, hp]

/-- Master decomposition of `create_idmaps` on a class-grouped input:
each class contributes its full walk, or the default record when it has no
points. -/
lemma createIdmaps_decomp (us gs : List IdMapping)
    (hu : ∀ p ∈ us, p.ty = IdType.user) (hg : ∀ p ∈ gs, p.ty = IdType.group)
    (hne : us ++ gs ≠ []) :
    createIdmaps (us ++ gs) =
      some (partFor IdType.user us ++ partFor IdType.group gs) := by
  simp only [partFor]
  cases us with
  | nil =>
    cases gs with
    | nil => exact absurd rfl hne
    | cons g gs' =>
      have hgty : g.ty = IdType.group := hg g (List.mem_cons_self g gs')
      simp only [List.nil_append, createIdmaps, hgty, if_pos]
      rw [foldl_run_none IdType.group (g :: gs') _ 0 hg (by simp)]
      simp [walkFull, tailRec]
  | cons u us' =>
    have huty : u.ty = IdType.user := hu u (List.mem_cons_self u us')
    rw [List.cons_append]
    simp only [createIdmaps, huty]
    rw [if_neg (by decide : ¬ (IdType.user = IdType.group))]
    rw [← List.cons_append, List.foldl_append]
    rw [foldl_run_none IdType.user (u :: us') _ 0 hu (by simp)]
    cases gs with
    | nil =>
      simp [walkFull, tailRec]
    | cons g gs' =>
      rw [foldl_trans (g :: gs') _ _ hg (by simp)]
      simp [walkFull, tailRec]

/-! Tiling, ordering and coverage-count lemmas. -/

/-- Tilings compose by concatenation. -/
lemma telescopes_append :
    ∀ (rs : List RangeRecord) (a m b : Int) (ss : List RangeRecord),
      telescopes a m rs = true → telescopes m b ss = true →
      telescopes a b (rs ++ ss) = true
  | [], a, m, b, ss, h1, h2 => by
    simp only [telescopes, decide_eq_true_eq] at h1
    subst h1
    simpa using h2
  | r :: rs, a, m, b, ss, h1, h2 => by
    simp only [telescopes, List.cons_append, Bool.and_eq_true, decide_eq_true_eq] at h1 ⊢
    exact ⟨h1.1, telescopes_append rs _ m b ss h1.2 h2⟩

/-- The walk of a run tiles exactly from the initial cursor to the final
cursor, for any run whatsoever. -/
lemma walk_telescopes (t : IdType) :
    ∀ (ps : List IdMapping) (c : Int),
      telescopes c (cursorAfter c ps) (walk t c ps) = true
  | [], c => by simp [walk, cursorAfter, telescopes]
  | p :: ps, c => by
    have e1 : c + (p.lxcId - c) = p.lxcId := by ring
    simp only [walk, cursorAfter, telescopes, e1, Bool.and_eq_true, decide_eq_true_eq]
    exact ⟨by trivial, by trivial, walk_telescopes t ps (p.lxcId + 1)⟩

/-- The full class sequence tiles `[0, 65536)`. -/
lemma walkFull_telescopes (t : IdType) (ps : List IdMapping) :
    telescopes 0 65536 (walkFull t ps) = true := by
  refine telescopes_append (walk t 0 ps) 0 (cursorAfter 0 ps) 65536 _
    (walk_telescopes t ps 0) ?_
  simp only [telescopes, tailRec, Bool.and_eq_true, decide_eq_true_eq]
  exact ⟨by trivial, by ring⟩

/-- A tiling by nonnegative-length records only moves forward. -/
lemma telescopes_ge :
    ∀ (rs : List RangeRecord) (a b : Int), telescopes a b rs = true →
      (∀ r ∈ rs, 0 ≤ r.len) → a ≤ b
  | [], a, b, h, _ => by
    simp only [telescopes, decide_eq_true_eq] at h
    omega
  | r :: rs, a, b, h, hlen => by
    simp only [telescopes, Bool.and_eq_true, decide_eq_true_eq] at h
    have h2 := telescopes_ge rs (r.start + r.len) b h.2
      (fun q hq => hlen q (List.mem_cons_of_mem r hq))
    have h3 := hlen r (List.mem_cons_self r rs)
    omega

/-- Records of a tiling that starts beyond `n` cannot cover `n`. -/
lemma countCover_zero_of_lt :
    ∀ (rs : List RangeRecord) (a b n : Int), telescopes a b rs = true →
      (∀ r ∈ rs, 0 ≤ r.len) → n < a → countCover n rs = 0
  | [], _, _, _, _, _, _ => rfl
  | r :: rs, a, b, n, h, hlen, hn => by
    simp only [telescopes, Bool.and_eq_true, decide_eq_true_eq] at h
    have hr : coversPt n r = false := by
      have : ¬ (r.start ≤ n) := by omega
      simp [coversPt, this]
    have h3 := hlen r (List.mem_cons_self r rs)
    have ih := countCover_zero_of_lt rs (r.start + r.len) b n h.2
      (fun q hq => hlen q (List.mem_cons_of_mem r hq)) (by omega)
    simpa [countCover, List.countP_cons, hr] using ih

/-- In a tiling of `[a, b)` by nonnegative-length records, a point at or
beyond `a` is covered exactly once if it is below `b` and never
otherwise. -/
lemma countCover_telescopes :
    ∀ (rs : List RangeRecord) (a b n : Int), telescopes a b rs = true →
      (∀ r ∈ rs, 0 ≤ r.len) → a ≤ n →
      countCover n rs = if n < b then 1 else 0
  | [], a, b, n, h, _, hn => by
    simp only [telescopes, decide_eq_true_eq] at h
    subst h
    rw [if_neg (by omega)]
    rfl
  | r :: rs, a, b, n, h, hlen, hn => by
    simp only [telescopes, Bool.and_eq_true, decide_eq_true_eq] at h
    obtain ⟨ha, h2⟩ := h
    have hlen' := fun q hq => hlen q (List.mem_cons_of_mem r hq)
    by_cases hlt : n < r.start + r.len
    · have hr : coversPt n r = true := by
        simp only [coversPt, Bool.and_eq_true, decide_eq_true_eq]
        omega
      have hz := countCover_zero_of_lt rs (r.start + r.len) b n h2 hlen' hlt
      have hb := telescopes_ge rs (r.start + r.len) b h2 hlen'
      simp only [countCover, List.countP_cons, hr, if_pos] at hz ⊢
      rw [if_pos (by omega : n < b)]
      omega
    · have hr : coversPt n r = false := by
        have : ¬ (n < r.start + r.len) := hlt
        simp [coversPt, this]
      have ih := countCover_telescopes rs (r.start + r.len) b n h2 hlen' (by omega)
      simp only [countCover, List.countP_cons, hr] at ih ⊢
      simpa using ih

/-- All lengths in the walk of a strictly increasing run starting at or
after the cursor are nonnegative. -/
lemma walk_len_nonneg (t : IdType) :
    ∀ (ps : List IdMapping) (c : Int),
      (∀ p ∈ ps, c ≤ p.lxcId) →
      List.Pairwise (fun a b => a.lxcId < b.lxcId) ps →
      ∀ r ∈ walk t c ps, 0 ≤ r.len
  | [], c, _, _ => by simp [walk]
  | p :: ps, c, hlb, hpair => by
    have hcp : c ≤ p.lxcId := hlb p (List.mem_cons_self p ps)
    intro r hr
    rcases List.mem_cons.mp hr with rfl | hr'
    · simpa using (by omega : (0 : Int) ≤ p.lxcId - c)
    rcases List.mem_cons.mp hr' with rfl | hr''
    · simp
    · exact walk_len_nonneg t ps (p.lxcId + 1)
        (fun q hq => by have := (List.pairwise_cons.mp hpair).1 q hq; omega)
        (List.pairwise_cons.mp hpair).2 r hr''

/-- The walk of a strictly increasing run, closed by any record starting
at the final cursor, is listed in nondecreasing start order. -/
lemma walk_chain (t : IdType) :
    ∀ (ps : List IdMapping) (c : Int) (last : RangeRecord),
      last.start = cursorAfter c ps →
      (∀ p ∈ ps, c ≤ p.lxcId) →
      List.Pairwise (fun a b => a.lxcId < b.lxcId) ps →
      List.Chain' (fun x y => x.start ≤ y.start) (walk t c ps ++ [last])
  | [], c, last, _, _, _ => by simp [walk]
  | p :: ps, c, last, hlast, hlb, hpair => by
    have hcp : c ≤ p.lxcId := hlb p (List.mem_cons_self p ps)
    have hlb' : ∀ q ∈ ps, p.lxcId + 1 ≤ q.lxcId :=
      fun q hq => by have := (List.pairwise_cons.mp hpair).1 q hq; omega
    have hlast' : last.start = cursorAfter (p.lxcId + 1) ps := by
      simpa [cursorAfter] using hlast
    have ih := walk_chain t ps (p.lxcId + 1) last hlast' hlb'
      (List.pairwise_cons.mp hpair).2
    simp only [walk, List.cons_append]
    rw [List.chain'_cons]
    refine ⟨by simpa using hcp, ?_⟩
    cases ps with
    | nil =>
      simp only [walk, List.nil_append] at ih ⊢
      rw [List.chain'_cons]
      have hl : last.start = p.lxcId + 1 := by simpa [cursorAfter] using hlast'
      exact ⟨by simp [hl], ih⟩
    | cons q ps' =>
      simp only [walk, List.cons_append] at ih ⊢
      rw [List.chain'_cons]
      exact ⟨by simp, ih⟩

/-! Class membership of emitted records. -/

/-- Every record of the walk of an all-`t` run has class `t`. -/
lemma walk_all_ty (t : IdType) :
    ∀ (ps : List IdMapping) (c : Int), (∀ p ∈ ps, p.ty = t) →
      ∀ r ∈ walk t c ps, r.ty = t
  | [], _, _ => by simp [walk]
  | p :: ps, c, hall => by
    intro r hr
    rcases List.mem_cons.mp hr with rfl | hr'
    · rfl
    rcases List.mem_cons.mp hr' with rfl | hr''
    · exact hall p (List.mem_cons_self p ps)
    · exact walk_all_ty t ps (p.lxcId + 1)
        (fun q hq => hall q (List.mem_cons_of_mem p hq)) r hr''

/-- Every record of a full class sequence has that class. -/
lemma walkFull_all_ty (t : IdType) (ps : List IdMapping) (hall : ∀ p ∈ ps, p.ty = t) :
    ∀ r ∈ walkFull t ps, r.ty = t := by
  intro r hr
  rcases List.mem_append.mp hr with h1 | h1
  · exact walk_all_ty t ps 0 hall r h1
  · have : r = tailRec t (cursorAfter 0 ps) := by simpa using h1
    subst this; rfl

/-- Every record of a class contribution has that class. -/
lemma partFor_all_ty (t : IdType) (ps : List IdMapping) (hall : ∀ p ∈ ps, p.ty = t) :
    ∀ r ∈ partFor t ps, r.ty = t := by
  intro r hr
  by_cases h : ps = []
  · subst h
    have : r = createDefaultIdmap t := by simpa [partFor] using hr
    subst this; rfl
  · rw [partFor, if_neg h] at hr
    exact walkFull_all_ty t ps hall r hr

/-- Filtering keeps everything when all records have the class. -/
lemma classRecords_of_all (t : IdType) (rs : List RangeRecord) (h : ∀ r ∈ rs, r.ty = t) :
    classRecords t rs = rs := by
  rw [classRecords, List.filter_eq_self]
  intro r hr
  simp [h r hr]

/-- Filtering removes everything when no record has the class. -/
lemma classRecords_of_none (t : IdType) (rs : List RangeRecord) (h : ∀ r ∈ rs, r.ty ≠ t) :
    classRecords t rs = [] := by
  rw [classRecords, List.filter_eq_nil_iff]
  intro r hr
  simp [h r hr]

/-- Filtering distributes over concatenation. -/
lemma classRecords_append (t : IdType) (rs ss : List RangeRecord) :
    classRecords t (rs ++ ss) = classRecords t rs ++ classRecords t ss := by
  simp [classRecords]

/-! Coverage properties of one class contribution. -/

/-- A class contribution is listed in nondecreasing start order. -/
lemma partFor_sorted (t : IdType) (ps : List IdMapping)
    (hlx : ∀ p ∈ ps, 1 ≤ p.lxcId)
    (hpair : List.Pairwise (fun a b => a.lxcId < b.lxcId) ps) :
    sortedByStart (partFor t ps) := by
  by_cases h : ps = []
  · subst h; rw [partFor, if_pos rfl]; exact List.chain'_singleton _
  · rw [partFor, if_neg h]
    exact walk_chain t ps 0 (tailRec t (cursorAfter 0 ps)) rfl
      (fun q hq => by have := hlx q hq; omega) hpair

/-- A class contribution tiles `[0, 65536)`. -/
lemma partFor_telescopes (t : IdType) (ps : List IdMapping) :
    telescopes 0 65536 (partFor t ps) = true := by
  by_cases h : ps = []
  · subst h; rw [partFor, if_pos rfl]
    simp only [telescopes, createDefaultIdmap, Bool.and_eq_true, decide_eq_true_eq]
    exact ⟨by trivial, by trivial⟩
  · rw [partFor, if_neg h]; exact walkFull_telescopes t ps

/-- A class contribution covers every point of `[0, 65536)` exactly once. -/
lemma partFor_count (t : IdType) (ps : List IdMapping)
    (hlx : ∀ p ∈ ps, 1 ≤ p.lxcId)
    (hpair : List.Pairwise (fun a b => a.lxcId < b.lxcId) ps)
    (n : Int) (h0 : 0 ≤ n) (h1 : n < 65536) :
    countCover n (partFor t ps) = 1 := by
  by_cases h : ps = []
  · subst h
    rw [partFor, if_pos rfl]
    have hc : coversPt n (createDefaultIdmap t) = true := by
      simp only [coversPt, createDefaultIdmap, Bool.and_eq_true, decide_eq_true_eq]
      constructor <;> omega
    simp [countCover, List.countP_cons, hc]
  · rw [partFor, if_neg h]
    have hlb : ∀ q ∈ ps, (0 : Int) ≤ q.lxcId := fun q hq => by have := hlx q hq; omega
    have hw := countCover_telescopes (walk t 0 ps) 0 (cursorAfter 0 ps) n
      (walk_telescopes t ps 0) (walk_len_nonneg t ps 0 hlb hpair) h0
    have happ : countCover n (walkFull t ps) =
        countCover n (walk t 0 ps) + countCover n [tailRec t (cursorAfter 0 ps)] := by
      simp [walkFull, countCover]
    rw [happ, hw]
    by_cases hc : cursorAfter 0 ps ≤ n
    · have ht : coversPt n (tailRec t (cursorAfter 0 ps)) = true := by
        simp only [coversPt, tailRec, Bool.and_eq_true, decide_eq_true_eq]
        exact ⟨hc, by omega⟩
      rw [if_neg (by omega)]
      simp [countCover, List.countP_cons, ht]
    · have ht : coversPt n (tailRec t (cursorAfter 0 ps)) = false := by
        have hcc : ¬ (cursorAfter 0 ps ≤ n) := hc
        simp [coversPt, tailRec, hcc]
      rw [if_pos (by omega)]
      simp [countCover, List.countP_cons, ht]

/-- Claim C1: for every valid input (non-empty, grouped USER points before
GROUP points, all ids in `[1, 65536]`, strictly increasing container ids
within each class), the emitted record sequence of each class is listed in
nondecreasing `container_start` order (so the emission order is a sort by
`container_start`), starts at 0, is contiguous with each record's start
plus length equal to the next record's start, ends at exactly 65536, and
covers every integer of `[0, 65536)` exactly once. -/
theorem partitioner_coverage (us gs : List IdMapping)
    (hu : ∀ p ∈ us, p.ty = IdType.user) (hg : ∀ p ∈ gs, p.ty = IdType.group)
    (hrange : ∀ p ∈ us ++ gs, 1 ≤ p.lxcId ∧ p.lxcId ≤ 65536 ∧
              1 ≤ p.hostId ∧ p.hostId ≤ 65536)
    (hsu : List.Pairwise (fun a b => a.lxcId < b.lxcId) us)
    (hsg : List.Pairwise (fun a b => a.lxcId < b.lxcId) gs)
    (hne : us ++ gs ≠ []) (t : IdType) :
    ∃ out, createIdmaps (us ++ gs) = some out ∧
      sortedByStart (classRecords t out) ∧
      telescopes 0 65536 (classRecords t out) = true ∧
      ∀ n : Int, 0 ≤ n → n < 65536 → countCover n (classRecords t out) = 1 := by
  refine ⟨partFor IdType.user us ++ partFor IdType.group gs,
          createIdmaps_decomp us gs hu hg hne, ?_⟩
  have h1 : classRecords IdType.user (partFor IdType.user us ++ partFor IdType.group gs)
      = partFor IdType.user us := by
    rw [classRecords_append,
        classRecords_of_all _ _ (partFor_all_ty _ _ hu),
        classRecords_of_none _ _ (fun r hr => by
          rw [partFor_all_ty IdType.group gs hg r hr]; decide),
        List.append_nil]
  have h2 : classRecords IdType.group (partFor IdType.user us ++ partFor IdType.group gs)
      = partFor IdType.group gs := by
    rw [classRecords_append,
        classRecords_of_none _ _ (fun r hr => by
          rw [partFor_all_ty IdType.user us hu r hr]; decide),
        classRecords_of_all _ _ (partFor_all_ty _ _ hg),
        List.nil_append]
  cases t with
  | user =>
    rw [h1]
    exact ⟨partFor_sorted _ _ (fun p hp => (hrange p (List.mem_append_left gs hp)).1) hsu,
           partFor_telescopes _ _,
           fun n h0 hn =>
             partFor_count _ _ (fun p hp => (hrange p (List.mem_append_left gs hp)).1)
               hsu n h0 hn⟩
  | group =>
    rw [h2]
    exact ⟨partFor_sorted _ _ (fun p hp => (hrange p (List.mem_append_right us hp)).1) hsg,
           partFor_telescopes _ _,
           fun n h0 hn =>
             partFor_count _ _ (fun p hp => (hrange p (List.mem_append_right us hp)).1)
               hsg n h0 hn⟩

/-- Witness for C1 at the scenario input `(User,1000,1000), (Group,1000,1000)`. -/
theorem partitioner_coverage_witness :
    ∃ out,
      createIdmaps ([⟨IdType.user, 1000, 1000⟩] ++ [⟨IdType.group, 1000, 1000⟩]) = some out ∧
      sortedByStart (classRecords IdType.user out) ∧
      telescopes 0 65536 (classRecords IdType.user out) = true ∧
      ∀ n : Int, 0 ≤ n → n < 65536 → countCover n (classRecords IdType.user out) = 1 :=
  partitioner_coverage [⟨IdType.user, 1000, 1000⟩] [⟨IdType.group, 1000, 1000⟩]
    (by decide) (by decide) (by decide)
    (by simp) (by simp) (by simp) IdType.user

/-- Claim C4: in a non-empty valid input where one class has zero points,
that class's records are exactly the one default record
`(class, 0, 100000, 65536)`, and the other class's records are exactly the
full walk of its own points (so they are unaffected by the absence). -/
theorem default_class_law (ids : List IdMapping) (t : IdType)
    (hall : ∀ p ∈ ids, p.ty = t)
    (hrange : ∀ p ∈ ids, 1 ≤ p.lxcId ∧ p.lxcId ≤ 65536 ∧
              1 ≤ p.hostId ∧ p.hostId ≤ 65536)
    (hpair : List.Pairwise (fun a b => a.lxcId < b.lxcId) ids)
    (hne : ids ≠ []) :
    ∃ out, createIdmaps ids = some out ∧
      classRecords (otherClass t) out = [createDefaultIdmap (otherClass t)] ∧
      classRecords t out = walkFull t ids := by
  cases t with
  | user =>
    have hd := createIdmaps_decomp ids [] hall (by simp) (by simpa using hne)
    rw [List.append_nil] at hd
    rw [show partFor IdType.user ids = walkFull IdType.user ids from if_neg hne,
        show partFor IdType.group [] = [createDefaultIdmap IdType.group] from if_pos rfl] at hd
    refine ⟨_, hd, ?_, ?_⟩
    · simp only [otherClass]
      rw [classRecords_append,
          classRecords_of_none _ _ (fun r hr => by
            rw [walkFull_all_ty IdType.user ids hall r hr]; decide),
          classRecords_of_all _ _ (fun r hr => by
            have : r = createDefaultIdmap IdType.group := by simpa using hr
            subst this; rfl),
          List.nil_append]
    · rw [classRecords_append,
          classRecords_of_all _ _ (walkFull_all_ty IdType.user ids hall),
          classRecords_of_none _ _ (fun r hr => by
            have : r = createDefaultIdmap IdType.group := by simpa using hr
            subst this; decide),
          List.append_nil]
  | group =>
    have hd := createIdmaps_decomp [] ids (by simp) hall (by simpa using hne)
    rw [List.nil_append] at hd
    rw [show partFor IdType.group ids = walkFull IdType.group ids from if_neg hne,
        show partFor IdType.user [] = [createDefaultIdmap IdType.user] from if_pos rfl] at hd
    refine ⟨_, hd, ?_, ?_⟩
    · simp only [otherClass]
      rw [classRecords_append,
          classRecords_of_all _ _ (fun r hr => by
            have : r = createDefaultIdmap IdType.user := by simpa using hr
            subst this; rfl),
          classRecords_of_none _ _ (fun r hr => by
            rw [walkFull_all_ty IdType.group ids hall r hr]; decide),
          List.append_nil]
    · rw [classRecords_append,
          classRecords_of_none _ _ (fun r hr => by
            have : r = createDefaultIdmap IdType.user := by simpa using hr
            subst this; decide),
          classRecords_of_all _ _ (walkFull_all_ty IdType.group ids hall),
          List.nil_append]

/-- Witness for C4 at the scenario input `(Group, 500, 600)`. -/
theorem default_class_law_witness :
    ∃ out, createIdmaps [⟨IdType.group, 500, 600⟩] = some out ∧
      classRecords (otherClass IdType.group) out =
        [createDefaultIdmap (otherClass IdType.group)] ∧
      classRecords IdType.group out = walkFull IdType.group [⟨IdType.group, 500, 600⟩] :=
  default_class_law [⟨IdType.group, 500, 600⟩] IdType.group
    (by decide) (by decide) (by simp) (by simp)

/-! Counting exact records (claim C3). -/

/-- The final cursor of a run of positive ids is nonnegative. -/
lemma cursorAfter_nonneg :
    ∀ (ps : List IdMapping) (c : Int), 0 ≤ c → (∀ q ∈ ps, 1 ≤ q.lxcId) →
      0 ≤ cursorAfter c ps
  | [], _, hc, _ => hc
  | p :: ps, c, _, hlx => by
    simp only [cursorAfter]
    exact cursorAfter_nonneg ps (p.lxcId + 1)
      (by have := hlx p (List.mem_cons_self p ps); omega)
      (fun q hq => hlx q (List.mem_cons_of_mem p hq))

/-- No record of a walk over points structurally different from `p` equals
`p`'s exact record (fillers are excluded by their offset host). -/
lemma countE_walk_zero (t : IdType) (p : IdMapping) :
    ∀ (ps : List IdMapping) (c : Int), 0 ≤ c → p.hostId ≤ 65536 →
      (∀ q ∈ ps, 1 ≤ q.lxcId) →
      (∀ q ∈ ps, ¬ (q.ty = p.ty ∧ q.lxcId = p.lxcId ∧ q.hostId = p.hostId)) →
      List.countP (fun r => decide (r = exactRec p)) (walk t c ps) = 0
  | [], _, _, _, _, _ => rfl
  | q :: ps, c, hc, hh, hlx, hne => by
    have h1 : ¬ ((⟨t, c, c + 100000, q.lxcId - c⟩ : RangeRecord) = exactRec p) := by
      simp only [exactRec, RangeRecord.mk.injEq]
      rintro ⟨-, -, h3, -⟩
      omega
    have h2 : ¬ ((⟨q.ty, q.lxcId, q.hostId, 1⟩ : RangeRecord) = exactRec p) := by
      simp only [exactRec, RangeRecord.mk.injEq]
      rintro ⟨ha, hb, hc2, -⟩
      exact hne q (List.mem_cons_self q ps) ⟨ha, hb, hc2⟩
    have hq1 : 1 ≤ q.lxcId := hlx q (List.mem_cons_self q ps)
    have ih := countE_walk_zero t p ps (q.lxcId + 1) (by omega) hh
      (fun r hr => hlx r (List.mem_cons_of_mem q hr))
      (fun r hr => hne r (List.mem_cons_of_mem q hr))
    simp only [walk, List.countP_cons, decide_eq_false h1, decide_eq_false h2]
    simp [ih]

/-- Each point of a strictly increasing run is matched by exactly one
record of the walk: its own exact record. -/
lemma countE_walk_one (t : IdType) (p : IdMapping) :
    ∀ (ps : List IdMapping) (c : Int), 0 ≤ c → p.hostId ≤ 65536 →
      (∀ q ∈ ps, 1 ≤ q.lxcId) →
      List.Pairwise (fun a b => a.lxcId < b.lxcId) ps →
      p ∈ ps →
      List.countP (fun r => decide (r = exactRec p)) (walk t c ps) = 1
  | [], _, _, _, _, _, hp => absurd hp (List.not_mem_nil p)
  | q :: ps, c, hc, hh, hlx, hpair, hp => by
    have h1 : ¬ ((⟨t, c, c + 100000, q.lxcId - c⟩ : RangeRecord) = exactRec p) := by
      simp only [exactRec, RangeRecord.mk.injEq]
      rintro ⟨-, -, h3, -⟩
      omega
    have hq1 : 1 ≤ q.lxcId := hlx q (List.mem_cons_self q ps)
    rcases List.mem_cons.mp hp with rfl | hp'
    · have h2 : ((⟨p.ty, p.lxcId, p.hostId, 1⟩ : RangeRecord) = exactRec p) := rfl
      have hz := countE_walk_zero t p ps (p.lxcId + 1) (by omega) hh
        (fun r hr => hlx r (List.mem_cons_of_mem p hr))
        (fun r hr => by
          have := (List.pairwise_cons.mp hpair).1 r hr
          rintro ⟨-, hb, -⟩
          omega)
      simp only [walk, List.countP_cons, decide_eq_false h1, decide_eq_true h2]
      simp [hz]
    · have hqp : q.lxcId < p.lxcId := (List.pairwise_cons.mp hpair).1 p hp'
      have h2 : ¬ ((⟨q.ty, q.lxcId, q.hostId, 1⟩ : RangeRecord) = exactRec p) := by
        simp only [exactRec, RangeRecord.mk.injEq]
        rintro ⟨-, hb, -⟩
        omega
      have ih := countE_walk_one t p ps (q.lxcId + 1) (by omega) hh
        (fun r hr => hlx r (List.mem_cons_of_mem q hr))
        (List.pairwise_cons.mp hpair).2 hp'
      simp only [walk, List.countP_cons, decide_eq_false h1, decide_eq_false h2]
      simp [ih]

/-- The closing filler never equals an exact record. -/
lemma countE_tail_zero (t : IdType) (p : IdMapping) (c : Int) (hc : 0 ≤ c)
    (hh : p.hostId ≤ 65536) :
    List.countP (fun r => decide (r = exactRec p)) [tailRec t c] = 0 := by
  have h1 : ¬ (tailRec t c = exactRec p) := by
    simp only [tailRec, exactRec, RangeRecord.mk.injEq]
    rintro ⟨-, -, h3, -⟩
    omega
  simp [List.countP_cons, decide_eq_false h1]

/-- The default record never equals an exact record. -/
lemma countE_default_zero (t : IdType) (p : IdMapping) (hh : p.hostId ≤ 65536) :
    List.countP (fun r => decide (r = exactRec p)) [createDefaultIdmap t] = 0 := by
  have h1 : ¬ (createDefaultIdmap t = exactRec p) := by
    simp only [createDefaultIdmap, exactRec, RangeRecord.mk.injEq]
    rintro ⟨-, -, h3, -⟩
    omega
  simp [List.countP_cons, decide_eq_false h1]

/-- A class contribution of the wrong class never matches the exact
record. -/
lemma countE_partFor_zero (t : IdType) (p : IdMapping) (ps : List IdMapping)
    (hall : ∀ q ∈ ps, q.ty = t) (hty : p.ty ≠ t) (hh : p.hostId ≤ 65536)
    (hlx : ∀ q ∈ ps, 1 ≤ q.lxcId) :
    List.countP (fun r => decide (r = exactRec p)) (partFor t ps) = 0 := by
  by_cases h : ps = []
  · subst h; rw [partFor, if_pos rfl]; exact countE_default_zero t p hh
  · rw [partFor, if_neg h, walkFull, List.countP_append]
    rw [countE_walk_zero t p ps 0 le_rfl hh hlx
        (fun q hq => by
          rintro ⟨ha, -, -⟩
          exact hty (by rw [← ha]; exact hall q hq)),
        countE_tail_zero t p (cursorAfter 0 ps) (cursorAfter_nonneg ps 0 le_rfl hlx) hh]

/-- A class contribution of the point's own class matches the exact record
exactly once. -/
lemma countE_partFor_one (t : IdType) (p : IdMapping) (ps : List IdMapping)
    (hp : p ∈ ps) (hh : p.hostId ≤ 65536)
    (hlx : ∀ q ∈ ps, 1 ≤ q.lxcId)
    (hpair : List.Pairwise (fun a b => a.lxcId < b.lxcId) ps) :
    List.countP (fun r => decide (r = exactRec p)) (partFor t ps) = 1 := by
  have h : ps ≠ [] := fun h => by subst h; exact absurd hp (List.not_mem_nil p)
  rw [partFor, if_neg h, walkFull, List.countP_append]
  rw [countE_walk_one t p ps 0 le_rfl hh hlx hpair hp,
      countE_tail_zero t p (cursorAfter 0 ps) (cursorAfter_nonneg ps 0 le_rfl hlx) hh]

/-- Claim C3: for every point `(class, c, h)` of a valid input, the output
contains exactly one record `(class, c, h, 1)`. -/
theorem exact_point_records (us gs : List IdMapping)
    (hu : ∀ p ∈ us, p.ty = IdType.user) (hg : ∀ p ∈ gs, p.ty = IdType.group)
    (hrange : ∀ p ∈ us ++ gs, 1 ≤ p.lxcId ∧ p.lxcId ≤ 65536 ∧
              1 ≤ p.hostId ∧ p.hostId ≤ 65536)
    (hsu : List.Pairwise (fun a b => a.lxcId < b.lxcId) us)
    (hsg : List.Pairwise (fun a b => a.lxcId < b.lxcId) gs)
    (p : IdMapping) (hp : p ∈ us ++ gs) :
    ∃ out, createIdmaps (us ++ gs) = some out ∧
      out.countP (fun r => decide (r = exactRec p)) = 1 := by
  have hne : us ++ gs ≠ [] := fun h => by
    rw [h] at hp; exact absurd hp (List.not_mem_nil p)
  refine ⟨_, createIdmaps_decomp us gs hu hg hne, ?_⟩
  rw [List.countP_append]
  have hlxu : ∀ q ∈ us, 1 ≤ q.lxcId :=
    fun q hq => (hrange q (List.mem_append_left gs hq)).1
  have hlxg : ∀ q ∈ gs, 1 ≤ q.lxcId :=
    fun q hq => (hrange q (List.mem_append_right us hq)).1
  have hh : p.hostId ≤ 65536 := (hrange p hp).2.2.2
  rcases List.mem_append.mp hp with hpu | hpg
  · have hpty : p.ty = IdType.user := hu p hpu
    rw [countE_partFor_one IdType.user p us hpu hh hlxu hsu,
        countE_partFor_zero IdType.group p gs hg (by rw [hpty]; decide) hh hlxg]
  · have hpty : p.ty = IdType.group := hg p hpg
    rw [countE_partFor_zero IdType.user p us hu (by rw [hpty]; decide) hh hlxu,
        countE_partFor_one IdType.group p gs hpg hh hlxg hsg]

/-- Witness for C3 at the input `(User,1000,2000), (Group,3000,4000)` and
its USER point. -/
theorem exact_point_records_witness :
    ∃ out,
      createIdmaps ([⟨IdType.user, 1000, 2000⟩] ++ [⟨IdType.group, 3000, 4000⟩]) = some out ∧
      out.countP (fun r => decide (r = exactRec ⟨IdType.user, 1000, 2000⟩)) = 1 :=
  exact_point_records [⟨IdType.user, 1000, 2000⟩] [⟨IdType.group, 3000, 4000⟩]
    (by decide) (by decide) (by decide) (by simp) (by simp)
    ⟨IdType.user, 1000, 2000⟩ (by decide)

/-! Reservation of host ids (claim C8). -/

/-- On a class-grouped input the USER filter keeps exactly the USER run. -/
lemma filter_user_of_grouped (us gs : List IdMapping)
    (hu : ∀ p ∈ us, p.ty = IdType.user) (hg : ∀ p ∈ gs, p.ty = IdType.group) :
    (us ++ gs).filter (fun p => decide (p.ty = IdType.user)) = us := by
  rw [List.filter_append]
  rw [List.filter_eq_self.mpr (fun p hp => by simp [hu p hp])]
  rw [List.filter_eq_nil_iff.mpr (fun p hp => by simp [hg p hp]), List.append_nil]

/-- On a class-grouped input the GROUP filter keeps exactly the GROUP run. -/
lemma filter_group_of_grouped (us gs : List IdMapping)
    (hu : ∀ p ∈ us, p.ty = IdType.user) (hg : ∀ p ∈ gs, p.ty = IdType.group) :
    (us ++ gs).filter (fun p => decide (p.ty = IdType.group)) = gs := by
  rw [List.filter_append]
  rw [List.filter_eq_nil_iff.mpr (fun p hp => by simp [hu p hp])]
  rw [List.filter_eq_self.mpr (fun p hp => by simp [hg p hp]), List.nil_append]

/-- Removing the fillers from a walk leaves exactly the exact records of
its points, in order. -/
lemma walk_filter_exact (t : IdType) :
    ∀ (ps : List IdMapping) (c : Int),
      (∀ p ∈ ps, 1 ≤ p.lxcId ∧ p.hostId ≤ 65536) →
      (walk t c ps).filter (fun r => ! r.isFiller) = ps.map exactRec
  | [], _, _ => rfl
  | p :: ps, c, hb => by
    have hbp := hb p (List.mem_cons_self p ps)
    have hf : (! (⟨t, c, c + 100000, p.lxcId - c⟩ : RangeRecord).isFiller) = false := by
      simp [RangeRecord.isFiller]
    have he : (! (⟨p.ty, p.lxcId, p.hostId, 1⟩ : RangeRecord).isFiller) = true := by
      simp only [RangeRecord.isFiller, Bool.not_eq_true', decide_eq_false_iff_not]
      omega
    simp only [walk, List.filter_cons, hf, he, if_false, if_true, List.map_cons]
    rw [walk_filter_exact t ps (p.lxcId + 1) (fun q hq => hb q (List.mem_cons_of_mem p hq))]
    simp [exactRec]

/-- Removing the fillers from a class contribution leaves exactly the
exact records of its points. -/
lemma partFor_filter_exact (t : IdType) (ps : List IdMapping)
    (hb : ∀ p ∈ ps, 1 ≤ p.lxcId ∧ p.hostId ≤ 65536) :
    (partFor t ps).filter (fun r => ! r.isFiller) = ps.map exactRec := by
  by_cases h : ps = []
  · subst h; rw [partFor, if_pos rfl]
    simp [List.filter_cons, createDefaultIdmap, RangeRecord.isFiller]
  · rw [partFor, if_neg h, walkFull, List.filter_append,
        walk_filter_exact t ps 0 hb]
    have ht : (! (tailRec t (cursorAfter 0 ps)).isFiller) = false := by
      simp [tailRec, RangeRecord.isFiller]
    simp [List.filter_cons, ht]

/-- All record starts of a walk from a nonnegative cursor are nonnegative. -/
lemma walk_start_nonneg (t : IdType) :
    ∀ (ps : List IdMapping) (c : Int), 0 ≤ c → (∀ p ∈ ps, 1 ≤ p.lxcId) →
      ∀ r ∈ walk t c ps, 0 ≤ r.start
  | [], _, _, _ => by simp [walk]
  | p :: ps, c, hc, hlx => by
    have hp1 : 1 ≤ p.lxcId := hlx p (List.mem_cons_self p ps)
    intro r hr
    rcases List.mem_cons.mp hr with rfl | hr'
    · simpa using hc
    rcases List.mem_cons.mp hr' with rfl | hr''
    · simpa using (by omega : (0 : Int) ≤ p.lxcId)
    · exact walk_start_nonneg t ps (p.lxcId + 1) (by omega)
        (fun q hq => hlx q (List.mem_cons_of_mem p hq)) r hr''

/-- All record starts of a class contribution are nonnegative. -/
lemma partFor_start_nonneg (t : IdType) (ps : List IdMapping)
    (hlx : ∀ p ∈ ps, 1 ≤ p.lxcId) :
    ∀ r ∈ partFor t ps, 0 ≤ r.start := by
  intro r hr
  by_cases h : ps = []
  · subst h
    have : r = createDefaultIdmap t := by simpa [partFor] using hr
    subst this
    simp [createDefaultIdmap]
  · rw [partFor, if_neg h] at hr
    rcases List.mem_append.mp hr with h1 | h1
    · exact walk_start_nonneg t ps 0 le_rfl hlx r h1
    · have : r = tailRec t (cursorAfter 0 ps) := by simpa using h1
      subst this
      simpa [tailRec] using cursorAfter_nonneg ps 0 le_rfl hlx

/-- Claim C8: the `/etc/subuid` block reserves, in order, exactly the host
starts of the exact (non-filler) USER records, the `/etc/subgid` block
those of the GROUP records; every non-filler record has length 1 (it is an
explicit point's record), and no filler's host start is ever reserved. -/
theorem subuid_reserves_exact_points (us gs : List IdMapping)
    (hu : ∀ p ∈ us, p.ty = IdType.user) (hg : ∀ p ∈ gs, p.ty = IdType.group)
    (hrange : ∀ p ∈ us ++ gs, 1 ≤ p.lxcId ∧ p.lxcId ≤ 65536 ∧
              1 ≤ p.hostId ∧ p.hostId ≤ 65536)
    (hne : us ++ gs ≠ []) :
    ∃ out, createIdmaps (us ++ gs) = some out ∧
      (createSubuidSubgidInfo (us ++ gs)).1 =
        ((classRecords IdType.user out).filter (fun r => ! r.isFiller)).map
          (fun r => r.host) ∧
      (createSubuidSubgidInfo (us ++ gs)).2 =
        ((classRecords IdType.group out).filter (fun r => ! r.isFiller)).map
          (fun r => r.host) ∧
      (∀ r ∈ out, r.isFiller = false → r.len = 1) ∧
      (∀ r ∈ out, r.isFiller = true →
        r.host ∉ (createSubuidSubgidInfo (us ++ gs)).1 ∧
        r.host ∉ (createSubuidSubgidInfo (us ++ gs)).2) := by
  have hbu : ∀ p ∈ us, 1 ≤ p.lxcId ∧ p.hostId ≤ 65536 := fun p hp =>
    ⟨(hrange p (List.mem_append_left gs hp)).1,
     (hrange p (List.mem_append_left gs hp)).2.2.2⟩
  have hbg : ∀ p ∈ gs, 1 ≤ p.lxcId ∧ p.hostId ≤ 65536 := fun p hp =>
    ⟨(hrange p (List.mem_append_right us hp)).1,
     (hrange p (List.mem_append_right us hp)).2.2.2⟩
  have h1 : classRecords IdType.user (partFor IdType.user us ++ partFor IdType.group gs)
      = partFor IdType.user us := by
    rw [classRecords_append,
        classRecords_of_all _ _ (partFor_all_ty _ _ hu),
        classRecords_of_none _ _ (fun r hr => by
          rw [partFor_all_ty IdType.group gs hg r hr]; decide),
        List.append_nil]
  have h2 : classRecords IdType.group (partFor IdType.user us ++ partFor IdType.group gs)
      = partFor IdType.group gs := by
    rw [classRecords_append,
        classRecords_of_none _ _ (fun r hr => by
          rw [partFor_all_ty IdType.user us hu r hr]; decide),
        classRecords_of_all _ _ (partFor_all_ty _ _ hg),
        List.nil_append]
  have hsub1 : (createSubuidSubgidInfo (us ++ gs)).1 = us.map (fun p => p.hostId) := by
    rw [createSubuidSubgidInfo, filter_user_of_grouped us gs hu hg]
  have hsub2 : (createSubuidSubgidInfo (us ++ gs)).2 = gs.map (fun p => p.hostId) := by
    rw [createSubuidSubgidInfo, filter_group_of_grouped us gs hu hg]
  refine ⟨_, createIdmaps_decomp us gs hu hg hne, ?_, ?_, ?_, ?_⟩
  · rw [hsub1, h1, partFor_filter_exact IdType.user us hbu, List.map_map]
    rfl
  · rw [hsub2, h2, partFor_filter_exact IdType.group gs hbg, List.map_map]
    rfl
  · intro r hr hfil
    rcases List.mem_append.mp hr with h | h
    · have hmem : r ∈ (partFor IdType.user us).filter (fun r => ! r.isFiller) :=
        List.mem_filter.mpr ⟨h, by rw [hfil]; rfl⟩
      rw [partFor_filter_exact IdType.user us hbu] at hmem
      obtain ⟨p, -, rfl⟩ := List.mem_map.mp hmem
      rfl
    · have hmem : r ∈ (partFor IdType.group gs).filter (fun r => ! r.isFiller) :=
        List.mem_filter.mpr ⟨h, by rw [hfil]; rfl⟩
      rw [partFor_filter_exact IdType.group gs hbg] at hmem
      obtain ⟨p, -, rfl⟩ := List.mem_map.mp hmem
      rfl
  · intro r hr hfil
    have hhost : r.host = r.start + 100000 := by
      simpa [RangeRecord.isFiller] using hfil
    have hstart : 0 ≤ r.start := by
      rcases List.mem_append.mp hr with h | h
      · exact partFor_start_nonneg IdType.user us (fun p hp => (hbu p hp).1) r h
      · exact partFor_start_nonneg IdType.group gs (fun p hp => (hbg p hp).1) r h
    constructor
    · rw [hsub1]
      intro hmem
      obtain ⟨p, hp, hph⟩ := List.mem_map.mp hmem
      have := (hbu p hp).2
      omega
    · rw [hsub2]
      intro hmem
      obtain ⟨p, hp, hph⟩ := List.mem_map.mp hmem
      have := (hbg p hp).2
      omega

/-- Witness for C8 at the input `(User,1000,2000), (Group,3000,4000)`. -/
theorem subuid_reserves_exact_points_witness :
    ∃ out,
      createIdmaps ([⟨IdType.user, 1000, 2000⟩] ++ [⟨IdType.group, 3000, 4000⟩]) = some out ∧
      (createSubuidSubgidInfo ([⟨IdType.user, 1000, 2000⟩] ++ [⟨IdType.group, 3000, 4000⟩])).1 =
        ((classRecords IdType.user out).filter (fun r => ! r.isFiller)).map
          (fun r => r.host) ∧
      (createSubuidSubgidInfo ([⟨IdType.user, 1000, 2000⟩] ++ [⟨IdType.group, 3000, 4000⟩])).2 =
        ((classRecords IdType.group out).filter (fun r => ! r.isFiller)).map
          (fun r => r.host) ∧
      (∀ r ∈ out, r.isFiller = false → r.len = 1) ∧
      (∀ r ∈ out, r.isFiller = true →
        r.host ∉ (createSubuidSubgidInfo
          ([⟨IdType.user, 1000, 2000⟩] ++ [⟨IdType.group, 3000, 4000⟩])).1 ∧
        r.host ∉ (createSubuidSubgidInfo
          ([⟨IdType.user, 1000, 2000⟩] ++ [⟨IdType.group, 3000, 4000⟩])).2) :=
  subuid_reserves_exact_points [⟨IdType.user, 1000, 2000⟩] [⟨IdType.group, 3000, 4000⟩]
    (by decide) (by decide) (by decide) (by decide)

/-! Splitting behaviour of the Normalizer (claim C10). -/

/-- Splitting a separator-free string yields the single segment. -/
lemma splitAux_sepFree (sep : Char) :
    ∀ (s : List Char), sep ∉ s → splitAux sep s = (s, [])
  | [], _ => rfl
  | ch :: cs, h => by
    have hch : ¬ (ch = sep) := fun e => h (e ▸ List.mem_cons_self ch cs)
    simp only [splitAux,
      splitAux_sepFree sep cs (fun hm => h (List.mem_cons_of_mem ch hm)), if_neg hch]

/-- Splitting cuts at the first separator occurrence. -/
lemma splitAux_append (sep : Char) :
    ∀ (a r : List Char), sep ∉ a →
      splitAux sep (a ++ sep :: r) = (a, (splitAux sep r).1 :: (splitAux sep r).2)
  | [], r, _ => by simp [splitAux]
  | ch :: a, r, h => by
    have hch : ¬ (ch = sep) := fun e => h (e ▸ List.mem_cons_self ch a)
    simp only [List.cons_append, splitAux, List.append_eq,
      splitAux_append sep a r (fun hm => h (List.mem_cons_of_mem ch hm)), if_neg hch]

/-- `pySplit` on a string whose head part is separator-free. -/
lemma pySplit_cons (sep : Char) (a r : List Char) (h : sep ∉ a) :
    pySplit sep (a ++ sep :: r) = a :: pySplit sep r := by
  simp [pySplit, splitAux_append sep a r h]

/-- `pySplit` on a separator-free string. -/
lemma pySplit_sepFree (sep : Char) (s : List Char) (h : sep ∉ s) :
    pySplit sep s = [s] := by
  simp [pySplit, splitAux_sepFree sep s h]

/-- A string containing the separator splits into at least two segments. -/
lemma splitAux_snd_ne (sep : Char) :
    ∀ (s : List Char), sep ∈ s → (splitAux sep s).2 ≠ []
  | [], h => absurd h (List.not_mem_nil sep)
  | ch :: cs, h => by
    by_cases hch : ch = sep
    · simp [splitAux, hch]
    · have hmem : sep ∈ cs := by
        rcases List.mem_cons.mp h with h1 | h1
        · exact absurd h1.symm hch
        · exact h1
      simp only [splitAux, if_neg hch]
      exact splitAux_snd_ne sep cs hmem

/-- Dropping the head of a list with a non-empty tail keeps the last
element. -/
lemma pyLast_cons (x : List Char) (l : List (List Char)) (h : l ≠ []) :
    pyLast (x :: l) = pyLast l := by
  cases l with
  | nil => exact absurd rfl h
  | cons y ys => rfl

/-- The last split segment is unchanged by anything before the last
separator occurrence. -/
lemma pyLast_pySplit (sep : Char) :
    ∀ (s r : List Char),
      pyLast (pySplit sep (s ++ sep :: r)) = pyLast (pySplit sep r)
  | [], r => by
    rw [List.nil_append,
        show pySplit sep (sep :: r) = [] :: pySplit sep r from by simp [pySplit, splitAux]]
    exact pyLast_cons [] (pySplit sep r) (by simp [pySplit])
  | ch :: s, r => by
    simp only [List.cons_append]
    by_cases hch : ch = sep
    · subst hch
      rw [show pySplit ch (ch :: (s ++ ch :: r)) = [] :: pySplit ch (s ++ ch :: r) from by
            simp [pySplit, splitAux]]
      rw [pyLast_cons [] _ (by simp [pySplit])]
      exact pyLast_pySplit ch s r
    · have h2 : (splitAux sep (s ++ sep :: r)).2 ≠ [] :=
        splitAux_snd_ne sep (s ++ sep :: r) (by simp)
      rw [show pySplit sep (ch :: (s ++ sep :: r)) =
            (ch :: (splitAux sep (s ++ sep :: r)).1) :: (splitAux sep (s ++ sep :: r)).2 from by
            simp [pySplit, splitAux, if_neg hch]]
      rw [pyLast_cons _ _ h2]
      have h3 : pyLast (pySplit sep (s ++ sep :: r)) =
          pyLast ((splitAux sep (s ++ sep :: r)).2) := by
        rw [show pySplit sep (s ++ sep :: r) =
              (splitAux sep (s ++ sep :: r)).1 :: (splitAux sep (s ++ sep :: r)).2 from rfl]
        cases hsnd : (splitAux sep (s ++ sep :: r)).2 with
        | nil => exact absurd hsnd h2
        | cons y ys => rfl
      rw [← h3, pyLast_pySplit sep s r]

/-- The last split segment of a string ending in a separator-free part. -/
lemma pyLast_pySplit_last (sep : Char) (s c : List Char) (hc : sep ∉ c) :
    pyLast (pySplit sep (s ++ sep :: c)) = c := by
  rw [pyLast_pySplit sep s c, pySplit_sepFree sep c hc]
  rfl

/-- Claim C10: on a combined token with two (or, via an arbitrary middle
that may itself contain separators, more) `=` separators the Normalizer
silently takes the first segment as the container side and the last as the
host side, ignoring everything in between; likewise for a side with two or
more `:` separators, whose first segment becomes the user component and
last segment the group component. -/
theorem normalizer_first_last_segment (a mid c x m2 z : List Char)
    (ha : '=' ∉ a) (hc : '=' ∉ c) (hx : ':' ∉ x) (hz : ':' ∉ z)
    (hxe : '=' ∉ x) (hme : '=' ∉ m2) (hze : '=' ∉ z) :
    lxcIds (a ++ '=' :: (mid ++ '=' :: c)) = a ∧
    hostIds (a ++ '=' :: (mid ++ '=' :: c)) = c ∧
    lxcUid (x ++ ':' :: (m2 ++ ':' :: z)) = x ∧
    lxcGid (x ++ ':' :: (m2 ++ ':' :: z)) = z ∧
    hostUid (x ++ ':' :: (m2 ++ ':' :: z)) = x ∧
    hostGid (x ++ ':' :: (m2 ++ ':' :: z)) = z := by
  have hnoeq : '=' ∉ (x ++ ':' :: (m2 ++ ':' :: z)) := by
    intro h
    rcases List.mem_append.mp h with h1 | h1
    · exact hxe h1
    rcases List.mem_cons.mp h1 with h2 | h2
    · exact absurd h2 (by decide)
    rcases List.mem_append.mp h2 with h3 | h3
    · exact hme h3
    rcases List.mem_cons.mp h3 with h4 | h4
    · exact absurd h4 (by decide)
    · exact hze h4
  have hlxc : lxcIds (x ++ ':' :: (m2 ++ ':' :: z)) = (x ++ ':' :: (m2 ++ ':' :: z)) := by
    rw [lxcIds, pySplit_sepFree _ _ hnoeq]
    rfl
  have hhost : hostIds (x ++ ':' :: (m2 ++ ':' :: z)) = (x ++ ':' :: (m2 ++ ':' :: z)) := by
    rw [hostIds, pySplit_sepFree _ _ hnoeq]
    rfl
  refine ⟨?_, ?_, ?_, ?_, ?_, ?_⟩
  · rw [lxcIds, pySplit_cons _ _ _ ha]
    rfl
  · rw [hostIds, pyLast_pySplit, pyLast_pySplit_last _ _ _ hc]
  · rw [lxcUid, hlxc, pySplit_cons _ _ _ hx]
    rfl
  · rw [lxcGid, hlxc, pyLast_pySplit, pyLast_pySplit_last _ _ _ hz]
  · rw [hostUid, hhost, pySplit_cons _ _ _ hx]
    rfl
  · rw [hostGid, hhost, pyLast_pySplit, pyLast_pySplit_last _ _ _ hz]

/-- Witness for C10 at the tokens `1=8=3` and `1:9:2`. -/
theorem normalizer_first_last_segment_witness :
    lxcIds (['1'] ++ '=' :: (['8'] ++ '=' :: ['3'])) = ['1'] ∧
    hostIds (['1'] ++ '=' :: (['8'] ++ '=' :: ['3'])) = ['3'] ∧
    lxcUid (['1'] ++ ':' :: (['9'] ++ ':' :: ['2'])) = ['1'] ∧
    lxcGid (['1'] ++ ':' :: (['9'] ++ ':' :: ['2'])) = ['2'] ∧
    hostUid (['1'] ++ ':' :: (['9'] ++ ':' :: ['2'])) = ['1'] ∧
    hostGid (['1'] ++ ':' :: (['9'] ++ ':' :: ['2'])) = ['2'] :=
  normalizer_first_last_segment ['1'] ['8'] ['3'] ['1'] ['9'] ['2']
    (by decide) (by decide) (by decide) (by decide) (by decide) (by decide) (by decide)
